import Mathlib

/-!
Verification of the ordered-list maintenance engine of the Ascendo kanban
application: the lexorank rank-assignment algorithm (RankSpace), the
optimistic-concurrency move protocol (MoveCoordinator), and the frontend
board store and drag-and-drop neighbor computation.

The backend implementation (`get_rank_between`, `move_card`) is not part of
the checked sources; those components are modelled from the specification
(spec sections 4.1 and 4.2) and each such definition is marked
"Modelled from the spec".  The frontend definitions are direct translations
of the TypeScript sources (`boardStore`, `useBoard`, `Board.handleDragEnd`).
-/

namespace Ascendo

/-! ## RankSpace -/

/-- A rank is a string over the alphabet a-z, represented as its list of
digits (0 = a, ..., 25 = z). -/
abbrev Rank := List Nat

/-- All digits of a rank lie in the 26-letter alphabet. -/
def digitsValid (r : Rank) : Prop := ∀ d ∈ r, d < 26

instance (r : Rank) : Decidable (digitsValid r) := by
  unfold digitsValid; infer_instance

/-- Lexicographic (character-wise) strict order on ranks. -/
def rankLt (l u : Rank) : Prop := List.Lex (· < ·) l u

instance (l u : Rank) : Decidable (rankLt l u) := by
  unfold rankLt; infer_instance

/-- Modelled from the spec: the "insert at end" / adjacent-seam extension of
`rankBetween` (spec section 4.1) — produce a rank strictly greater than the
input, copying maximal characters and emitting the midpoint between the
first non-maximal character and the end of the alphabet. -/
def rankAfter : Rank → Rank
  | [] => [13]
  | a :: l => if a = 25 then 25 :: rankAfter l else [(a + 26) / 2]

/-- Modelled from the spec: the midpoint walk of `rankBetween(lower, upper)`
(spec section 4.1) — walk both strings character by character, treating
missing trailing characters of the lower bound as the lowest code point;
emit the midpoint character as soon as a gap of at least one unused code
point exists, extend and recurse when the characters are adjacent, and
signal failure (`none`) when the upper bound is exhausted with no gap
found. -/
def rankBetweenCore : Rank → Rank → Option Rank
  | _, [] => none
  | l, b :: u =>
    let a := l.headD 0
    if a = b then (rankBetweenCore l.tail u).map (fun r => a :: r)
    else if a + 1 = b then some (a :: rankAfter l.tail)
    else some [(a + b) / 2]

/-- Outcome of a rank computation: a rank, or the rebalance signal. -/
inductive RankResult where
  | ok (r : Rank)
  | needsRebalance
  deriving DecidableEq

/-- Modelled from the spec: ranks longer than this threshold signal
`NeedsRebalance` (spec section 4.1, "length threshold (fixed, e.g., 10
characters)"). -/
def maxRankLength : Nat := 10

/-- Signal `NeedsRebalance` when a computed rank exceeds the threshold. -/
def checkLength (r : Rank) : RankResult :=
  if r.length ≤ maxRankLength then .ok r else .needsRebalance

/-- Modelled from the spec: `rankBetween(lower, upper)` (spec section 4.1,
`get_rank_between` in the repository's README).  `none` bounds mean open
ends; both open yields the canonical mid-alphabet starting rank. -/
def rankBetween : Option Rank → Option Rank → RankResult
  | none, none => .ok [13]
  | none, some u =>
    match rankBetweenCore [] u with
    | some r => checkLength r
    | none => .needsRebalance
  | some l, none => checkLength (rankAfter l)
  | some l, some u =>
    match rankBetweenCore l u with
    | some r => checkLength r
    | none => .needsRebalance

/-- Modelled from the spec: `rebalance` assigns every item of a container an
evenly spaced rank, step size proportional to alphabetSize / itemCount
(spec section 4.1). -/
def rebalanceRanks (n : Nat) : List Rank :=
  (List.range n).map (fun i => [(i + 1) * 26 / (n + 1)])

theorem rankAfter_gt (l : Rank) (h : digitsValid l) : rankLt l (rankAfter l) := by
  induction l with
  | nil => exact List.Lex.nil
  | cons a l ih =>
    unfold rankAfter
    by_cases ha : a = 25
    · subst ha
      simp only [if_pos rfl]
      exact List.Lex.cons (ih (fun d hd => h d (List.mem_cons_of_mem _ hd)))
    · rw [if_neg ha]
      have h26 : a < 26 := h a (List.mem_cons_self a l)
      exact List.Lex.rel (by omega)

theorem rankBetweenCore_between :
    ∀ (u l : Rank), digitsValid l → rankLt l u →
      ∀ r, rankBetweenCore l u = some r → rankLt l r ∧ rankLt r u := by
  intro u
  induction u with
  | nil =>
    intro l _ hlt r hr
    exact absurd hr (by simp [rankBetweenCore])
  | cons b u ih =>
    intro l hval hlt r hr
    cases l with
    | nil =>
      simp only [rankBetweenCore, List.headD_nil, List.tail_nil] at hr
      by_cases hb0 : 0 = b
      · rw [if_pos hb0] at hr
        cases hc : rankBetweenCore [] u with
        | none => rw [hc] at hr; cases hr
        | some r' =>
          rw [hc] at hr
          simp only [Option.map_some'] at hr
          cases hr
          have hu : rankLt [] u := by
            cases u with
            | nil => exact absurd hc (by simp [rankBetweenCore])
            | cons c u' => exact List.Lex.nil
          have := ih [] (by intro d hd; cases hd) hu r' hc
          exact ⟨List.Lex.nil, hb0 ▸ List.Lex.cons this.2⟩
      · rw [if_neg hb0] at hr
        by_cases hb1 : 0 + 1 = b
        · rw [if_pos hb1] at hr
          cases hr
          exact ⟨List.Lex.nil, List.Lex.rel (by omega)⟩
        · rw [if_neg hb1] at hr
          cases hr
          refine ⟨List.Lex.nil, List.Lex.rel ?_⟩
          omega
    | cons a l' =>
      simp only [rankBetweenCore, List.headD_cons, List.tail_cons] at hr
      have hval' : digitsValid l' := fun d hd => hval d (List.mem_cons_of_mem _ hd)
      by_cases hab : a = b
      · rw [if_pos hab] at hr
        cases hc : rankBetweenCore l' u with
        | none => rw [hc] at hr; cases hr
        | some r' =>
          rw [hc] at hr
          simp only [Option.map_some'] at hr
          cases hr
          have hlt' : rankLt l' u := by
            subst hab
            cases hlt with
            | cons h => exact h
            | rel h => omega
          have := ih l' hval' hlt' r' hc
          exact ⟨List.Lex.cons this.1, hab ▸ List.Lex.cons this.2⟩
      · rw [if_neg hab] at hr
        have haltb : a < b := by
          cases hlt with
          | cons h => exact absurd rfl hab
          | rel h => exact h
        by_cases hadj : a + 1 = b
        · rw [if_pos hadj] at hr
          cases hr
          exact ⟨List.Lex.cons (rankAfter_gt l' hval'), List.Lex.rel (by omega)⟩
        · rw [if_neg hadj] at hr
          cases hr
          exact ⟨List.Lex.rel (by omega), List.Lex.rel (by omega)⟩

/-- C1: for every pair of rank strings over the alphabet a-z with
`lower < upper` lexicographically, `rankBetween(lower, upper)` either
returns a rank strictly inside the open interval `(lower, upper)` or
signals `NeedsRebalance`; it never returns a value outside that interval. -/
theorem rankBetween_strictly_between (l u : Rank)
    (hl : digitsValid l) (hu : digitsValid u) (hlt : rankLt l u)
    (r : Rank) (hres : rankBetween (some l) (some u) = .ok r) :
    rankLt l r ∧ rankLt r u := by
  have hres2 : (match rankBetweenCore l u with
      | some r => checkLength r
      | none => RankResult.needsRebalance) = RankResult.ok r := hres
  clear hres
  cases hc : rankBetweenCore l u with
  | none => rw [hc] at hres2; cases hres2
  | some rr =>
    rw [hc] at hres2
    have hres3 : (if rr.length ≤ maxRankLength then RankResult.ok rr
        else RankResult.needsRebalance) = RankResult.ok r := hres2
    by_cases hlen : rr.length ≤ maxRankLength
    · rw [if_pos hlen] at hres3
      cases hres3
      exact rankBetweenCore_between u l hl hlt r hc
    · rw [if_neg hlen] at hres3
      cases hres3

/-- Witness for C1 at the concrete bounds "aaa" and "aac": the returned
rank "aab" lies strictly between them. -/
theorem rankBetween_strictly_between_witness :
    rankLt [0, 0, 0] [0, 0, 1] ∧ rankLt [0, 0, 1] [0, 0, 2] :=
  rankBetween_strictly_between [0, 0, 0] [0, 0, 2]
    (by decide) (by decide) (by decide) [0, 0, 1] (by decide)

/-- C2 counterexample: for the container ranks "aaa" and "aac" the engine
returns the intermediate rank "aab"; it does not signal `NeedsRebalance`
(the repository's README documents exactly this return value). -/
theorem rankBetween_aaa_aac_returns_aab :
    rankBetween (some [0, 0, 0]) (some [0, 0, 2]) = .ok [0, 0, 1] ∧
    rankBetween (some [0, 0, 0]) (some [0, 0, 2]) ≠ .needsRebalance := by
  exact ⟨rfl, by decide⟩

/-- C2 (amended): between "aaa" and "aac" the engine returns "aab" without
rebalancing; `NeedsRebalance` is signalled when the computed rank would
exceed the 10-character threshold (for example between "aaaaaaaaaa" and
"aaaaaaaaab"), and after rebalancing that two-item container to evenly
spaced ranks "i" and "r", a retried insertion between the rebalanced
neighbors succeeds with a rank strictly between them. -/
theorem rankBetween_rebalance_then_retry_succeeds :
    rankBetween (some [0, 0, 0]) (some [0, 0, 2]) = .ok [0, 0, 1] ∧
    rankBetween (some [0, 0, 0, 0, 0, 0, 0, 0, 0, 0])
      (some [0, 0, 0, 0, 0, 0, 0, 0, 0, 1]) = .needsRebalance ∧
    rebalanceRanks 2 = [[8], [17]] ∧
    rankBetween (some [8]) (some [17]) = .ok [12] ∧
    rankLt [8] [12] ∧ rankLt [12] [17] := by
  refine ⟨rfl, by decide, by decide, rfl, by decide, by decide⟩

/-! ## MoveCoordinator -/

/-- Modelled from the spec: the movable item (a card row): stable id, owning
container, rank, optimistic-concurrency version, soft-delete marker. -/
structure Item where
  id : Nat
  containerId : Nat
  rank : Rank
  version : Nat
  deleted : Bool
  deriving DecidableEq

/-- Modelled from the spec: the transactional store visible to the move
coordinator — item rows plus the set of live container ids. -/
structure Store where
  items : List Item
  containers : List Nat
  deriving DecidableEq

/-- Modelled from the spec: terminal outcomes of the move protocol. -/
inductive MoveOutcome where
  | success (item : Item)
  | conflict (currentVersion : Nat)
  | invalidRequest
  | rebalanceFailure
  deriving DecidableEq

/-- Look up a live (not soft-deleted) item by id. -/
def findLive (s : Store) (itemId : Nat) : Option Item :=
  s.items.find? (fun i => i.id == itemId && !i.deleted)

/-- Modelled from the spec: a supplied neighbor id must denote a live item
of the target container (spec section 4.2, step Validate). -/
def neighborOk (s : Store) (tc : Nat) : Option Nat → Bool
  | none => true
  | some nid =>
    match findLive s nid with
    | some i => i.containerId == tc
    | none => false

/-- Modelled from the spec: step 1 of the move protocol. -/
def validateMove (s : Store) (tc : Nat) (bid aid : Option Nat) : Bool :=
  s.containers.contains tc && neighborOk s tc bid && neighborOk s tc aid

/-- Rank of a neighbor item, `none` for an open end. -/
def neighborRank (s : Store) : Option Nat → Option Rank
  | none => none
  | some nid => (findLive s nid).map (fun i => i.rank)

/-- Boolean lexicographic comparison used to order container items. -/
def rankLtB : Rank → Rank → Bool
  | [], [] => false
  | [], _ :: _ => true
  | _ :: _, [] => false
  | a :: l, b :: u => a < b || (a == b && rankLtB l u)

/-- Rank reassignment of one item during a rebalance: look the item up in
the computed assignment and replace only its rank. -/
def rebalanceAssign (assignment : List (Item × Rank)) (i : Item) : Item :=
  match assignment.find? (fun p => p.1.id == i.id) with
  | some p => { i with rank := p.2 }
  | none => i

/-- Modelled from the spec: `rebalance` — the live items of one container,
in current rank order, each receive an evenly spaced fresh rank; only rank
fields change (spec I4). -/
def applyRebalance (s : Store) (tc : Nat) : Store :=
  { s with items :=
      s.items.map (rebalanceAssign
        (((s.items.filter (fun i => i.containerId == tc && !i.deleted)).mergeSort
            (fun a b => !(rankLtB b.rank a.rank))).zip
          (rebalanceRanks ((s.items.filter
            (fun i => i.containerId == tc && !i.deleted)).length)))) }

/-- Modelled from the spec: step 4 — compute the new rank from the locked
neighbor ranks, rebalancing the target container and retrying once when
`NeedsRebalance` is signalled. -/
def computeRank (s : Store) (tc : Nat) (bid aid : Option Nat) :
    Option (Rank × Store) :=
  match rankBetween (neighborRank s bid) (neighborRank s aid) with
  | .ok r => some (r, s)
  | .needsRebalance =>
    match rankBetween (neighborRank (applyRebalance s tc) bid)
        (neighborRank (applyRebalance s tc) aid) with
    | .ok r => some (r, applyRebalance s tc)
    | .needsRebalance => none

/-- The per-row write of a successful move: new container, new rank,
incremented version; every other row is untouched. -/
def moveAssign (itemId tc : Nat) (r : Rank) (i : Item) : Item :=
  if i.id == itemId then
    { i with containerId := tc, rank := r, version := i.version + 1 }
  else i

/-- Apply a successful move to the store. -/
def applyMove (s : Store) (itemId tc : Nat) (r : Rank) : Store :=
  { s with items := s.items.map (moveAssign itemId tc r) }

/-- Modelled from the spec: `move` (spec section 4.2, `move_card` in the
repository's README) — validate, lock the row, check the expected version,
compute the rank, apply.  A version mismatch aborts with `Conflict` and
writes nothing; validation failure and rebalance failure also write
nothing. -/
def move (s : Store) (itemId tc : Nat) (bid aid : Option Nat)
    (expectedVersion : Nat) : MoveOutcome × Store :=
  if validateMove s tc bid aid then
    match findLive s itemId with
    | none => (.invalidRequest, s)
    | some x =>
      if x.version = expectedVersion then
        match computeRank s tc bid aid with
        | some (r, s2) =>
          (.success { x with containerId := tc, rank := r, version := x.version + 1 },
            applyMove s2 itemId tc r)
        | none => (.rebalanceFailure, s)
      else (.conflict x.version, s)
  else (.invalidRequest, s)

theorem findLive_map (f : Item → Item) (hid : ∀ i, (f i).id = i.id)
    (hdel : ∀ i, (f i).deleted = i.deleted) (l : List Item) (itemId : Nat) :
    (l.map f).find? (fun i => i.id == itemId && !i.deleted)
      = (l.find? (fun i => i.id == itemId && !i.deleted)).map f := by
  induction l with
  | nil => rfl
  | cons x xs ih =>
    simp only [List.map_cons]
    cases hpx : (x.id == itemId && !x.deleted) with
    | true =>
      have : ((f x).id == itemId && !(f x).deleted) = true := by
        rw [hid x, hdel x]; exact hpx
      simp [List.find?, this, hpx]
    | false =>
      have : ((f x).id == itemId && !(f x).deleted) = false := by
        rw [hid x, hdel x]; exact hpx
      simp [List.find?, this, hpx, ih]

theorem rebalanceAssign_id (assignment : List (Item × Rank)) (i : Item) :
    (rebalanceAssign assignment i).id = i.id := by
  unfold rebalanceAssign; split <;> rfl

theorem rebalanceAssign_deleted (assignment : List (Item × Rank)) (i : Item) :
    (rebalanceAssign assignment i).deleted = i.deleted := by
  unfold rebalanceAssign; split <;> rfl

theorem rebalanceAssign_version (assignment : List (Item × Rank)) (i : Item) :
    (rebalanceAssign assignment i).version = i.version := by
  unfold rebalanceAssign; split <;> rfl

theorem moveAssign_id (itemId tc : Nat) (r : Rank) (i : Item) :
    (moveAssign itemId tc r i).id = i.id := by
  unfold moveAssign; split <;> rfl

theorem moveAssign_deleted (itemId tc : Nat) (r : Rank) (i : Item) :
    (moveAssign itemId tc r i).deleted = i.deleted := by
  unfold moveAssign; split <;> rfl

theorem findLive_applyMove (s : Store) (itemId tc : Nat) (r : Rank) (qid : Nat) :
    findLive (applyMove s itemId tc r) qid
      = (findLive s qid).map (moveAssign itemId tc r) :=
  findLive_map _ (moveAssign_id itemId tc r) (moveAssign_deleted itemId tc r) _ _

theorem findLive_applyRebalance (s : Store) (tc qid : Nat) :
    ∃ g : Item → Item, (∀ i, (g i).id = i.id) ∧ (∀ i, (g i).deleted = i.deleted) ∧
      (∀ i, (g i).version = i.version) ∧
      findLive (applyRebalance s tc) qid = (findLive s qid).map g := by
  refine ⟨rebalanceAssign _, rebalanceAssign_id _, rebalanceAssign_deleted _,
    rebalanceAssign_version _, findLive_map _ (rebalanceAssign_id _)
      (rebalanceAssign_deleted _) _ _⟩

theorem computeRank_store (s : Store) (tc : Nat) (bid aid : Option Nat)
    (r : Rank) (s2 : Store) (h : computeRank s tc bid aid = some (r, s2)) :
    s2 = s ∨ s2 = applyRebalance s tc := by
  unfold computeRank at h
  cases h1 : rankBetween (neighborRank s bid) (neighborRank s aid) with
  | ok r1 => rw [h1] at h; simp only [Option.some.injEq, Prod.mk.injEq] at h
             exact Or.inl h.2.symm
  | needsRebalance =>
    rw [h1] at h
    cases h2 : rankBetween (neighborRank (applyRebalance s tc) bid)
        (neighborRank (applyRebalance s tc) aid) with
    | ok r2 => rw [h2] at h; simp only [Option.some.injEq, Prod.mk.injEq] at h
               exact Or.inr h.2.symm
    | needsRebalance => rw [h2] at h; cases h

theorem move_success_inv (s : Store) (itemId tc : Nat) (bid aid : Option Nat)
    (ev : Nat) (it : Item) (s' : Store)
    (h : move s itemId tc bid aid ev = (.success it, s')) :
    validateMove s tc bid aid = true ∧
    ∃ x r s2, findLive s itemId = some x ∧ x.version = ev ∧
      it = { x with containerId := tc, rank := r, version := x.version + 1 } ∧
      computeRank s tc bid aid = some (r, s2) ∧
      (s2 = s ∨ s2 = applyRebalance s tc) ∧
      s' = applyMove s2 itemId tc r := by
  unfold move at h
  split at h
  · split at h
    next hfl => simp at h
    next x hfl =>
      split at h
      next hv =>
        split at h
        next r s2 hcr =>
          simp only [Prod.mk.injEq, MoveOutcome.success.injEq] at h
          exact ⟨by assumption, x, r, s2, hfl, hv, h.1.symm, hcr,
            computeRank_store s tc bid aid r s2 hcr, h.2.symm⟩
        next hcr => simp at h
      next hv => simp at h
  · simp at h

theorem move_snd_characterization (s : Store) (i t : Nat) (bid aid : Option Nat)
    (ev : Nat) :
    (move s i t bid aid ev).2 = s ∨ ∃ it, (move s i t bid aid ev).1 = .success it := by
  unfold move
  split
  · split
    · exact Or.inl rfl
    · split
      · split
        · exact Or.inr ⟨_, rfl⟩
        · exact Or.inl rfl
      · exact Or.inl rfl
  · exact Or.inl rfl

theorem move_conflict_no_write (s : Store) (i t : Nat) (bid aid : Option Nat)
    (ev cv : Nat) (h : (move s i t bid aid ev).1 = .conflict cv) :
    (move s i t bid aid ev).2 = s := by
  cases move_snd_characterization s i t bid aid ev with
  | inl h2 => exact h2
  | inr h2 => obtain ⟨it, h2⟩ := h2; rw [h2] at h; cases h

/-- C4: if a move carrying `expectedVersion` v succeeds, then a subsequent
move request for the same item that still carries v and passes validation
returns `Conflict` with the advanced version v + 1, a second such retry
returns `Conflict` again, and a `Conflict` outcome writes no rows: the
store is returned unchanged by every conflicting move. -/
theorem move_stale_version_conflicts (s : Store) (itemId tc : Nat)
    (bid aid : Option Nat) (v : Nat) (it : Item) (s' : Store)
    (hsucc : move s itemId tc bid aid v = (.success it, s'))
    (tc2 : Nat) (bid2 aid2 : Option Nat)
    (hval : validateMove s' tc2 bid2 aid2 = true) :
    move s' itemId tc2 bid2 aid2 v = (.conflict (v + 1), s') ∧
    move (move s' itemId tc2 bid2 aid2 v).2 itemId tc2 bid2 aid2 v
      = (.conflict (v + 1), s') ∧
    (∀ (s0 : Store) (i t : Nat) (b a : Option Nat) (ev cv : Nat),
      (move s0 i t b a ev).1 = .conflict cv → (move s0 i t b a ev).2 = s0) := by
  obtain ⟨-, x, r, s2, hfl, hver, -, -, hs2, hs'⟩ :=
    move_success_inv s itemId tc bid aid v it s' hsucc
  have hfl0 : s.items.find? (fun i => i.id == itemId && !i.deleted) = some x := hfl
  have hx : (x.id == itemId && !x.deleted) = true :=
    List.find?_some (p := fun (i : Item) => i.id == itemId && !i.deleted) hfl0
  have hfl2 : ∃ x2, findLive s2 itemId = some x2 ∧ x2.id = x.id ∧
      x2.version = x.version := by
    cases hs2 with
    | inl h => exact ⟨x, h ▸ hfl, rfl, rfl⟩
    | inr h =>
      obtain ⟨g, hgid, -, hgver, hmap⟩ := findLive_applyRebalance s tc itemId
      exact ⟨g x, by rw [h, hmap, hfl]; rfl, hgid x, hgver x⟩
  obtain ⟨x2, hfl2, hx2id, hx2ver⟩ := hfl2
  have hfl' : findLive s' itemId = some (moveAssign itemId tc r x2) := by
    rw [hs', findLive_applyMove, hfl2]; rfl
  have hx2match : (x2.id == itemId) = true := by
    rw [hx2id]; exact ((Bool.and_eq_true _ _).mp hx).1
  have hver' : (moveAssign itemId tc r x2).version = v + 1 := by
    unfold moveAssign
    rw [if_pos hx2match]
    simp only
    rw [hx2ver, hver]
  have hmain : move s' itemId tc2 bid2 aid2 v = (.conflict (v + 1), s') := by
    unfold move
    rw [if_pos hval]
    split
    next hnone => rw [hfl'] at hnone; cases hnone
    next y hy =>
      rw [hfl'] at hy
      injection hy with hy
      subst hy
      rw [if_neg (by rw [hver']; omega), hver']
  refine ⟨hmain, by rw [hmain]; exact hmain, ?_⟩
  intro s0 i t b a ev cv h
  exact move_conflict_no_write s0 i t b a ev cv h

/-- Witness for C4: a one-item store; the move from container 1 to
container 2 succeeds, after which retrying with the stale version 1
returns `Conflict 2` and leaves the store unchanged. -/
theorem move_stale_version_conflicts_witness :
    move { items := [{ id := 5, containerId := 2, rank := [13], version := 2,
                       deleted := false }], containers := [1, 2] }
        5 2 none none 1
      = (.conflict 2,
         { items := [{ id := 5, containerId := 2, rank := [13], version := 2,
                       deleted := false }], containers := [1, 2] }) :=
  (move_stale_version_conflicts
    { items := [{ id := 5, containerId := 1, rank := [13], version := 1,
                  deleted := false }], containers := [1, 2] }
    5 2 none none 1
    { id := 5, containerId := 2, rank := [13], version := 2, deleted := false }
    { items := [{ id := 5, containerId := 2, rank := [13], version := 2,
                  deleted := false }], containers := [1, 2] }
    (by decide) 2 none none (by decide)).1

/-! ## Frontend board store and drag-and-drop (TypeScript sources) -/

/-- The frontend card record (frontend/src/types).  The position string is
represented by its list of characters; JavaScript string comparison is
lexicographic on code units, which is the lexicographic order on the
character lists. -/
structure Card where
  id : Nat
  title : String
  description : Option String
  position : List Char
  list_id : Nat
  version : Nat
  created_at : String
  deriving DecidableEq

/-- The frontend list record (named `List` in the source). -/
structure BoardList where
  id : Nat
  name : String
  position : List Char
  board_id : Nat
  cards : List Card
  deriving DecidableEq

/-- The frontend board record. -/
structure Board where
  id : Nat
  name : String
  description : Option String
  owner_id : Nat
  lists : List BoardList
  deriving DecidableEq

/-- JavaScript string comparison `a < b`: strict lexicographic order on the
character lists. -/
def posLtB : List Char → List Char → Bool
  | [], [] => false
  | [], _ :: _ => true
  | _ :: _, [] => false
  | a :: l, b :: u => if a < b then true else if b < a then false else posLtB l u

/-- The board store's card comparator as a non-strict relation: the source
comparator returns -1 when `a.position < b.position`, 1 when
`a.position > b.position` and 0 otherwise, so `a` may stay before `b`
exactly when `b.position < a.position` fails. -/
def cardLe (a b : Card) : Bool := !(posLtB b.position a.position)

/-- boardStore helper: stable sort of cards by Lexorank position.  The
source comparator returns -1/0/1 from string comparison; a stable merge
sort with the non-strict comparison implements it exactly. -/
def sortCards (cards : List Card) : List Card :=
  cards.mergeSort cardLe

/-- Update the first element satisfying the predicate — the semantics of
finding an object in an array and mutating it in place. -/
def updateFirst {α : Type} (p : α → Bool) (f : α → α) : List α → List α
  | [] => []
  | x :: xs => if p x then f x :: xs else x :: updateFirst p f xs

/-- Find the first element satisfying the predicate and remove it
(`findIndex` followed by `splice(index, 1)` in the source). -/
def extractFirst {α : Type} (p : α → Bool) : List α → Option (α × List α)
  | [] => none
  | x :: xs =>
    if p x then some (x, xs)
    else (extractFirst p xs).map (fun r => (r.1, x :: r.2))

/-- boardStore.setBoard: lists arriving from the API are stored with every
list's cards sorted by position. -/
def setBoard (board : Board) : Option Board :=
  some { board with
    lists := board.lists.map (fun l => { l with cards := sortCards l.cards }) }

/-- Result of `moveCardOptimistic`: the new stored board, the captured
previous board, and the moved card as returned to the mutation context. -/
structure MoveOptResult where
  newStore : Option Board
  previousBoard : Option Board
  card : Option Card
  deriving DecidableEq

/-- boardStore.moveCardOptimistic: capture the previous board; remove the
card from the source list; set its list_id to the target; insert it into
the target list at the requested index clamped to the list length.  When
the board is missing, or the source list, the card or the target list is
not found, the store is left unchanged and no card is returned. -/
def moveCardOptimistic (cardId sourceListId targetListId newIndex : Nat)
    (board : Option Board) : MoveOptResult :=
  match board with
  | none => ⟨none, none, none⟩
  | some prev =>
    match prev.lists.find? (fun l => l.id == sourceListId) with
    | none => ⟨some prev, some prev, none⟩
    | some sourceList =>
      match extractFirst (fun c => c.id == cardId) sourceList.cards with
      | none => ⟨some prev, some prev, none⟩
      | some (card0, remaining) =>
        let lists1 := updateFirst (fun l => l.id == sourceListId)
          (fun l => { l with cards := remaining }) prev.lists
        match lists1.find? (fun l => l.id == targetListId) with
        | none => ⟨some prev, some prev, none⟩
        | some targetList =>
          let movedCard := { card0 with list_id := targetListId }
          let insertIndex := min newIndex targetList.cards.length
          let lists2 := updateFirst (fun l => l.id == targetListId)
            (fun l => { l with cards := l.cards.insertIdx insertIndex movedCard }) lists1
          ⟨some { prev with lists := lists2 }, some prev, some movedCard⟩

/-- boardStore.revertBoard: restore the captured board when present. -/
def revertBoard (previousBoard : Option Board) (store : Option Board) :
    Option Board :=
  match previousBoard with
  | some p => some p
  | none => store

/-- A `Partial<Card>` update object: present fields override the card's. -/
structure CardPatch where
  title : Option String
  description : Option (Option String)
  position : Option (List Char)
  list_id : Option Nat
  version : Option Nat
  deriving DecidableEq

/-- Object spread `{ ...card, ...updates }`. -/
def applyPatch (u : CardPatch) (c : Card) : Card :=
  { c with
    title := u.title.getD c.title,
    description := u.description.getD c.description,
    position := u.position.getD c.position,
    list_id := u.list_id.getD c.list_id,
    version := u.version.getD c.version }

/-- boardStore.updateCardAfterMove: patch the matching card in every list
and re-sort every list by position. -/
def updateCardAfterMove (cardId : Nat) (updates : CardPatch)
    (board : Option Board) : Option Board :=
  match board with
  | none => none
  | some b => some { b with lists := b.lists.map (fun l =>
      { l with cards := sortCards (l.cards.map (fun c =>
          if c.id == cardId then applyPatch updates c else c)) }) }

/-- boardStore.updateCard: identical shape to `updateCardAfterMove` in the
source — patch the matching card everywhere and re-sort. -/
def updateCard (cardId : Nat) (updates : CardPatch) (board : Option Board) :
    Option Board :=
  match board with
  | none => none
  | some b => some { b with lists := b.lists.map (fun l =>
      { l with cards := sortCards (l.cards.map (fun c =>
          if c.id == cardId then applyPatch updates c else c)) }) }

/-- boardStore.addCard: append the card to the matching list and re-sort
that list. -/
def addCard (listId : Nat) (card : Card) (board : Option Board) :
    Option Board :=
  match board with
  | none => none
  | some b => some { b with lists := b.lists.map (fun l =>
      if l.id == listId then { l with cards := sortCards (l.cards ++ [card]) }
      else l) }

/-- boardStore.removeCard: drop the card from the matching list. -/
def removeCard (cardId listId : Nat) (board : Option Board) : Option Board :=
  match board with
  | none => none
  | some b => some { b with lists := b.lists.map (fun l =>
      if l.id == listId then
        { l with cards := l.cards.filter (fun c => !(c.id == cardId)) }
      else l) }

/-- The three user-visible failure notices of the move mutation. -/
inductive MoveErrorNotice where
  | conflict
  | invalidMove
  | genericFailure
  deriving DecidableEq

/-- useBoard.moveCardMutation.onError, classification: a 409 response is
reported as a conflict, a 422 as an invalid move, anything else as a
generic failure. -/
def classifyMoveError (status : Option Nat) : MoveErrorNotice :=
  if status == some 409 then .conflict
  else if status == some 422 then .invalidMove
  else .genericFailure

/-- useBoard.moveCardMutation.onError, rollback: revert to the captured
previous board when the mutation context holds one. -/
def onMoveError (res : MoveOptResult) : Option Board :=
  match res.previousBoard with
  | some p => revertBoard (some p) res.newStore
  | none => res.newStore

/-- useBoard.moveCardMutation.onSuccess: apply exactly the position,
version and list_id of the server's returned card to the matching stored
card. -/
def onMoveSuccess (updatedCard : Card) (board : Option Board) : Option Board :=
  updateCardAfterMove updatedCard.id
    { title := none, description := none,
      position := some updatedCard.position,
      list_id := some updatedCard.list_id,
      version := some updatedCard.version } board

/-- Board.handleDragEnd, neighbor computation: beforeCardId / afterCardId
from the target list's cards with the moved card excluded and the
insertion index. -/
def computeNeighbors (cardsWithoutActive : List Card) (adjustedIndex : Nat) :
    Option Nat × Option Nat :=
  if adjustedIndex = 0 then
    (none, cardsWithoutActive.head?.map (fun c => c.id))
  else if adjustedIndex ≥ cardsWithoutActive.length then
    (cardsWithoutActive.getLast?.map (fun c => c.id), none)
  else
    ((cardsWithoutActive[adjustedIndex - 1]?).map (fun c => c.id),
     (cardsWithoutActive[adjustedIndex]?).map (fun c => c.id))

/-- A drop target: a card, or a list's droppable area. -/
inductive OverTarget where
  | card (c : Card)
  | list (listId : Nat)
  deriving DecidableEq

/-- The argument record `handleDragEnd` passes to `moveCard`. -/
structure MoveArgs where
  cardId : Nat
  sourceListId : Nat
  targetListId : Nat
  newIndex : Nat
  version : Nat
  beforeCardId : Option Nat
  afterCardId : Option Nat
  deriving DecidableEq

/-- Board.handleDragEnd: decide whether a drop issues a `moveCard` call and
with which arguments; `none` means the handler returns without calling
`moveCard`.  Dropping a card onto its own index in its own list returns
early.  The source's same-list index adjustment assigns `newIndex` in both
of its branches, so `adjustedIndex = newIndex` here; an over card missing
from its own list (findIndex -1) leads to an out-of-range access in the
source and to no issued move request, rendered as `none`. -/
def handleDragEnd (board : Option Board) (active : Option Card)
    (over : Option OverTarget) : Option MoveArgs :=
  match board, over with
  | none, _ => none
  | _, none => none
  | some b, some ov =>
    match active with
    | none => none
    | some activeCard =>
      match ov with
      | .card overCard =>
        match b.lists.find? (fun l => l.id == overCard.list_id) with
        | none => none
        | some targetList =>
          if activeCard.list_id == overCard.list_id
              && targetList.cards.findIdx? (fun c => c.id == activeCard.id)
                == targetList.cards.findIdx? (fun c => c.id == overCard.id) then
            none
          else
            match targetList.cards.findIdx? (fun c => c.id == overCard.id) with
            | none => none
            | some newIndex =>
              some { cardId := activeCard.id, sourceListId := activeCard.list_id,
                     targetListId := overCard.list_id, newIndex := newIndex,
                     version := activeCard.version,
                     beforeCardId := (computeNeighbors
                       (targetList.cards.filter (fun c => !(c.id == activeCard.id)))
                       newIndex).1,
                     afterCardId := (computeNeighbors
                       (targetList.cards.filter (fun c => !(c.id == activeCard.id)))
                       newIndex).2 }
      | .list listId =>
        match b.lists.find? (fun l => l.id == listId) with
        | none => none
        | some targetList =>
          some { cardId := activeCard.id, sourceListId := activeCard.list_id,
                 targetListId := listId,
                 newIndex := (targetList.cards.filter
                   (fun c => !(c.id == activeCard.id))).length,
                 version := activeCard.version,
                 beforeCardId := (computeNeighbors
                   (targetList.cards.filter (fun c => !(c.id == activeCard.id)))
                   (targetList.cards.filter (fun c => !(c.id == activeCard.id))).length).1,
                 afterCardId := (computeNeighbors
                   (targetList.cards.filter (fun c => !(c.id == activeCard.id)))
                   (targetList.cards.filter (fun c => !(c.id == activeCard.id))).length).2 }

/-- The request body built by useBoard.moveCardMutation.mutationFn. -/
structure MoveCardRequest where
  target_list_id : Nat
  expected_version : Nat
  before_card_id : Option Nat
  after_card_id : Option Nat
  deriving DecidableEq

/-- useBoard.moveCardMutation.mutationFn: the move request sent to the
server. -/
def buildMoveRequest (args : MoveArgs) : MoveCardRequest :=
  { target_list_id := args.targetListId, expected_version := args.version,
    before_card_id := args.beforeCardId, after_card_id := args.afterCardId }

/-- The drag-to-store pipeline: a drop either issues a move request — whose
onMutate step applies `moveCardOptimistic` to the store — or leaves the
store untouched. -/
def dragPipeline (board : Option Board) (active : Option Card)
    (over : Option OverTarget) : Option Board :=
  match handleDragEnd board active over with
  | none => board
  | some a =>
    (moveCardOptimistic a.cardId a.sourceListId a.targetListId a.newIndex board).newStore

/-! ## Claim theorems on the frontend -/

/-- C3: after any failed move, the onError rollback applied to the store
produced by the optimistic update restores the exact pre-move board, and
an HTTP 409 response is classified as a conflict, distinct from every
other failure status. -/
theorem move_failure_rollback_and_conflict_distinct
    (cardId sourceListId targetListId newIndex : Nat) (board : Option Board) :
    onMoveError (moveCardOptimistic cardId sourceListId targetListId newIndex board)
      = board ∧
    (∀ status : Option Nat, classifyMoveError status = .conflict ↔ status = some 409) := by
  constructor
  · cases board with
    | none => rfl
    | some prev =>
      cases h1 : prev.lists.find? (fun l => l.id == sourceListId) with
      | none => simp [moveCardOptimistic, onMoveError, revertBoard, h1]
      | some sourceList =>
        cases h2 : extractFirst (fun c => c.id == cardId) sourceList.cards with
        | none => simp [moveCardOptimistic, onMoveError, revertBoard, h1, h2]
        | some p =>
          obtain ⟨card0, remaining⟩ := p
          cases h3 : (updateFirst (fun l => l.id == sourceListId)
              (fun l => { l with cards := remaining }) prev.lists).find?
              (fun l => l.id == targetListId) with
          | none => simp [moveCardOptimistic, onMoveError, revertBoard, h1, h2, h3]
          | some targetList =>
            simp [moveCardOptimistic, onMoveError, revertBoard, h1, h2, h3]
  · intro status
    constructor
    · intro h
      unfold classifyMoveError at h
      split at h
      next h409 => exact eq_of_beq h409
      next h409 =>
        split at h
        next => simp at h
        next => simp at h
    · intro h
      subst h
      rfl

/-- The per-card update applied by the post-success handler: the server
card's position, list_id and version are copied onto the matching card. -/
def moveSuccessPatch (uc : Card) (c : Card) : Card :=
  if c.id == uc.id then
    applyPatch
      { title := none, description := none, position := some uc.position,
        list_id := some uc.list_id, version := some uc.version } c
  else c

theorem forall2_of_map {α : Type} {R : α → α → Prop} (f : α → α) (l : List α)
    (h : ∀ x ∈ l, R x (f x)) : List.Forall₂ R l (l.map f) := by
  induction l with
  | nil => exact List.Forall₂.nil
  | cons x xs ih =>
    exact List.Forall₂.cons (h x (List.mem_cons_self x xs))
      (ih (fun y hy => h y (List.mem_cons_of_mem _ hy)))

theorem onMoveSuccess_eq (uc : Card) (b : Board) :
    onMoveSuccess uc (some b) = some { b with lists := b.lists.map (fun l =>
      { l with cards := sortCards (l.cards.map (moveSuccessPatch uc)) }) } := rfl

/-- C5: a successful move never changes the moved item's id (nor its
soft-delete marker); it changes only containerId, rank and version, the
version advancing by exactly one.  In the frontend, the post-success
update applies exactly position, version and list_id to the card whose id
matches the moved card, leaves every card with a different id unchanged as
an object, and keeps every list's card collection otherwise intact, up to
the re-sort by position. -/
theorem move_changes_only_container_rank_version
    (s : Store) (itemId tc : Nat) (bid aid : Option Nat) (v : Nat)
    (it : Item) (s' : Store)
    (hsucc : move s itemId tc bid aid v = (.success it, s')) :
    (∃ x, findLive s itemId = some x ∧ it.id = x.id ∧ it.deleted = x.deleted ∧
      it.version = x.version + 1 ∧ it.containerId = tc) ∧
    (∀ (uc : Card) (b : Board), ∃ b2, onMoveSuccess uc (some b) = some b2 ∧
      List.Forall₂ (fun l l2 => l2.id = l.id ∧ l2.name = l.name ∧
        l2.cards.Perm (l.cards.map (moveSuccessPatch uc))) b.lists b2.lists) ∧
    (∀ uc c, c.id ≠ uc.id → moveSuccessPatch uc c = c) ∧
    (∀ uc c, (moveSuccessPatch uc c).id = c.id ∧
      (moveSuccessPatch uc c).title = c.title ∧
      (moveSuccessPatch uc c).description = c.description ∧
      (moveSuccessPatch uc c).created_at = c.created_at ∧
      (c.id = uc.id → (moveSuccessPatch uc c).position = uc.position ∧
        (moveSuccessPatch uc c).list_id = uc.list_id ∧
        (moveSuccessPatch uc c).version = uc.version)) := by
  refine ⟨?_, ?_, ?_, ?_⟩
  · obtain ⟨-, x, r, s2, hfl, hver, hit, -, -, -⟩ :=
      move_success_inv s itemId tc bid aid v it s' hsucc
    subst hit
    exact ⟨x, hfl, rfl, rfl, rfl, rfl⟩
  · intro uc b
    refine ⟨_, onMoveSuccess_eq uc b, forall2_of_map _ _ ?_⟩
    intro l hl
    exact ⟨rfl, rfl, List.mergeSort_perm _ _⟩
  · intro uc c hne
    unfold moveSuccessPatch
    rw [if_neg (by simp [hne])]
  · intro uc c
    unfold moveSuccessPatch applyPatch
    by_cases hc : (c.id == uc.id) = true
    · rw [if_pos hc]
      exact ⟨rfl, rfl, rfl, rfl, fun h => ⟨rfl, rfl, rfl⟩⟩
    · rw [if_neg hc]
      exact ⟨rfl, rfl, rfl, rfl, fun h => absurd (by simp [h]) hc⟩

/-- A one-item demonstration store, used to instantiate theorems. -/
def demoStoreA : Store :=
  { items := [{ id := 5, containerId := 1, rank := [13], version := 1, deleted := false }],
    containers := [1, 2] }

/-- The demonstration store after its item moved to container 2. -/
def demoStoreB : Store :=
  { items := [{ id := 5, containerId := 2, rank := [13], version := 2, deleted := false }],
    containers := [1, 2] }

/-- The item returned by the successful demonstration move. -/
def demoMoved : Item :=
  { id := 5, containerId := 2, rank := [13], version := 2, deleted := false }

/-- Witness for C5 at a concrete successful move: the returned item keeps
id 5 and deletion flag, advances the version from 1 to 2 and lands in
container 2. -/
theorem move_changes_only_container_rank_version_witness :
    ∃ x, findLive demoStoreA 5 = some x ∧
      demoMoved.id = x.id ∧ demoMoved.deleted = x.deleted ∧
      demoMoved.version = x.version + 1 ∧ demoMoved.containerId = 2 :=
  (move_changes_only_container_rank_version demoStoreA 5 2 none none 1
    demoMoved demoStoreB (by decide)).1

/-- A list's cards are in ascending lexicographic order of position. -/
def listSorted (l : BoardList) : Prop :=
  l.cards.Pairwise (fun a b => cardLe a b = true)

instance (l : BoardList) : Decidable (listSorted l) := by
  unfold listSorted; infer_instance

/-- Every list of the board is sorted by position. -/
def BoardSorted (b : Board) : Prop := ∀ l ∈ b.lists, listSorted l

instance (b : Board) : Decidable (BoardSorted b) := by
  unfold BoardSorted; infer_instance

/-- Sortedness of the stored, possibly absent, board. -/
def StoreSorted : Option Board → Prop
  | none => True
  | some b => BoardSorted b

instance : (ob : Option Board) → Decidable (StoreSorted ob)
  | none => isTrue True.intro
  | some b => inferInstanceAs (Decidable (BoardSorted b))

theorem posLtB_irrefl (a : List Char) : posLtB a a = false := by
  induction a with
  | nil => rfl
  | cons x xs ih => simp [posLtB, if_neg (lt_irrefl x), ih]

theorem posLtB_trans (a b c : List Char) (h1 : posLtB a b = true)
    (h2 : posLtB b c = true) : posLtB a c = true := by
  induction a generalizing b c with
  | nil =>
    cases b with
    | nil => simp [posLtB] at h1
    | cons y ys =>
      cases c with
      | nil => simp [posLtB] at h2
      | cons z zs => simp [posLtB]
  | cons x xs ih =>
    cases b with
    | nil => simp [posLtB] at h1
    | cons y ys =>
      cases c with
      | nil => simp [posLtB] at h2
      | cons z zs =>
        simp only [posLtB] at h1 h2 ⊢
        by_cases hxy : x < y
        · by_cases hyz : y < z
          · rw [if_pos (lt_trans hxy hyz)]
          · rw [if_neg hyz] at h2
            by_cases hzy : z < y
            · rw [if_pos hzy] at h2; cases h2
            · have hyz2 : y = z := le_antisymm (not_lt.mp hzy) (not_lt.mp hyz)
              subst hyz2
              rw [if_pos hxy]
        · rw [if_neg hxy] at h1
          by_cases hyx : y < x
          · rw [if_pos hyx] at h1; cases h1
          · have hxy2 : x = y := le_antisymm (not_lt.mp hyx) (not_lt.mp hxy)
            subst hxy2
            rw [if_neg hxy] at h1
            by_cases hxz : x < z
            · rw [if_pos hxz]
            · rw [if_neg hxz] at h2 ⊢
              by_cases hzx : z < x
              · rw [if_pos hzx] at h2; cases h2
              · rw [if_neg hzx] at h2 ⊢
                exact ih ys zs h1 h2

theorem posLtB_eq_of_not (p q : List Char) (h1 : posLtB p q = false)
    (h2 : posLtB q p = false) : p = q := by
  induction p generalizing q with
  | nil =>
    cases q with
    | nil => rfl
    | cons y ys => simp [posLtB] at h1
  | cons x xs ih =>
    cases q with
    | nil => simp [posLtB] at h2
    | cons y ys =>
      simp only [posLtB] at h1 h2
      by_cases hxy : x < y
      · rw [if_pos hxy] at h1; cases h1
      · by_cases hyx : y < x
        · rw [if_pos hyx] at h2; cases h2
        · rw [if_neg hxy, if_neg hyx] at h1
          rw [if_neg hyx, if_neg hxy] at h2
          have hxy2 : x = y := le_antisymm (not_lt.mp hyx) (not_lt.mp hxy)
          rw [hxy2, ih ys h1 h2]

theorem cardLe_trans (a b c : Card) (h1 : cardLe a b = true)
    (h2 : cardLe b c = true) : cardLe a c = true := by
  unfold cardLe at h1 h2 ⊢
  rw [Bool.not_eq_true'] at h1 h2 ⊢
  cases hca : posLtB c.position a.position with
  | false => rfl
  | true =>
    cases hab : posLtB a.position b.position with
    | false =>
      have heq := posLtB_eq_of_not _ _ h1 hab
      rw [heq, hca] at h2
      exact h2
    | true =>
      have htr := posLtB_trans _ _ _ hca hab
      rw [htr] at h2
      exact h2

theorem cardLe_total (a b : Card) : (cardLe a b || cardLe b a) = true := by
  unfold cardLe
  cases hba : posLtB b.position a.position with
  | false => rfl
  | true =>
    cases hab : posLtB a.position b.position with
    | false => rfl
    | true =>
      have := posLtB_trans _ _ _ hab hba
      rw [posLtB_irrefl] at this
      cases this

theorem sortCards_sorted (cards : List Card) :
    (sortCards cards).Pairwise (fun a b => cardLe a b = true) :=
  List.sorted_mergeSort cardLe_trans cardLe_total cards

theorem setBoard_sorted (b : Board) : StoreSorted (setBoard b) := by
  intro l' hl'
  simp only [setBoard, List.mem_map] at hl'
  obtain ⟨l, hl, rfl⟩ := hl'
  exact sortCards_sorted l.cards

theorem updateCardAfterMove_sorted (cid : Nat) (u : CardPatch)
    (ob : Option Board) : StoreSorted (updateCardAfterMove cid u ob) := by
  cases ob with
  | none => exact True.intro
  | some b =>
    intro l' hl'
    simp only [updateCardAfterMove, List.mem_map] at hl'
    obtain ⟨l, hl, rfl⟩ := hl'
    exact sortCards_sorted _

theorem updateCard_sorted (cid : Nat) (u : CardPatch) (ob : Option Board) :
    StoreSorted (updateCard cid u ob) := by
  cases ob with
  | none => exact True.intro
  | some b =>
    intro l' hl'
    simp only [updateCard, List.mem_map] at hl'
    obtain ⟨l, hl, rfl⟩ := hl'
    exact sortCards_sorted _

theorem addCard_sorted (lid : Nat) (c : Card) (ob : Option Board)
    (h : StoreSorted ob) : StoreSorted (addCard lid c ob) := by
  cases ob with
  | none => exact True.intro
  | some b =>
    intro l' hl'
    simp only [addCard, List.mem_map] at hl'
    obtain ⟨l, hl, rfl⟩ := hl'
    by_cases hid : (l.id == lid) = true
    · rw [if_pos hid]
      exact sortCards_sorted _
    · rw [if_neg hid]
      exact h l hl

theorem removeCard_sorted (cid lid : Nat) (ob : Option Board)
    (h : StoreSorted ob) : StoreSorted (removeCard cid lid ob) := by
  cases ob with
  | none => exact True.intro
  | some b =>
    intro l' hl'
    simp only [removeCard, List.mem_map] at hl'
    obtain ⟨l, hl, rfl⟩ := hl'
    by_cases hid : (l.id == lid) = true
    · rw [if_pos hid]
      exact List.Pairwise.filter _ (h l hl)
    · rw [if_neg hid]
      exact h l hl

/-- A demonstration board: list 10 holds the card with position "a", list
20 holds cards with positions "b" and "d"; every list is sorted. -/
def demoC6Board : Board :=
  { id := 1, name := "B", description := none, owner_id := 1,
    lists := [
      { id := 10, name := "L1", position := ['a'], board_id := 1,
        cards := [{ id := 1, title := "A", description := none, position := ['a'],
                    list_id := 10, version := 1, created_at := "" }] },
      { id := 20, name := "L2", position := ['b'], board_id := 1,
        cards := [{ id := 2, title := "B", description := none, position := ['b'],
                    list_id := 20, version := 1, created_at := "" },
                  { id := 3, title := "C", description := none, position := ['d'],
                    list_id := 20, version := 1, created_at := "" }] }] }

/-- C6 counterexample: the stored board is not always position-sorted after
a board-store operation — moveCardOptimistic splices card 1 (position "a")
to the end of list 20 (positions "b", "d"), leaving that list unsorted. -/
theorem moveCardOptimistic_breaks_position_order :
    BoardSorted demoC6Board ∧
    ¬ StoreSorted (moveCardOptimistic 1 10 20 2 (some demoC6Board)).newStore := by
  exact ⟨by decide, by decide⟩

/-- C6 (amended): every board-store operation except moveCardOptimistic
leaves every list of the stored board sorted in ascending lexicographic
order of position — setBoard, updateCard and updateCardAfterMove (hence
the post-success update) sort unconditionally, addCard and removeCard
preserve sortedness — while moveCardOptimistic splices the moved card at
the requested index keeping its old position string, so the target list
need not be rank-sorted until the server acknowledgment re-sorts it. -/
theorem boardStore_sorted_after_ops :
    (∀ b, StoreSorted (setBoard b)) ∧
    (∀ cid u ob, StoreSorted (updateCard cid u ob)) ∧
    (∀ cid u ob, StoreSorted (updateCardAfterMove cid u ob)) ∧
    (∀ uc ob, StoreSorted (onMoveSuccess uc ob)) ∧
    (∀ lid c ob, StoreSorted ob → StoreSorted (addCard lid c ob)) ∧
    (∀ cid lid ob, StoreSorted ob → StoreSorted (removeCard cid lid ob)) :=
  ⟨setBoard_sorted, updateCard_sorted, updateCardAfterMove_sorted,
    fun uc ob => updateCardAfterMove_sorted _ _ ob,
    addCard_sorted, removeCard_sorted⟩

/-- Witness for C6 (amended): removing and adding a card on the concrete
sorted demonstration board keeps it sorted. -/
theorem boardStore_sorted_after_ops_witness :
    StoreSorted (removeCard 2 20 (some demoC6Board)) ∧
    StoreSorted (addCard 10
      { id := 9, title := "N", description := none, position := ['c'],
        list_id := 10, version := 1, created_at := "" } (some demoC6Board)) :=
  ⟨boardStore_sorted_after_ops.2.2.2.2.2 2 20 (some demoC6Board) (by decide),
   boardStore_sorted_after_ops.2.2.2.2.1 10
     { id := 9, title := "N", description := none, position := ['c'],
       list_id := 10, version := 1, created_at := "" } (some demoC6Board) (by decide)⟩

/-- C7: for a drop at insertion index i over the target list's cards with
the moved card excluded (i never exceeds the number of remaining cards as
handleDragEnd computes it), the issued beforeCardId is the id of the card
at index i - 1 and afterCardId the id of the card at index i — the
immediate left and right neighbors of the intended position; beforeCardId
is absent exactly when i = 0, afterCardId exactly when i equals the number
of remaining cards, and both are absent for an empty target list. -/
theorem computeNeighbors_immediate_neighbors (cs : List Card) (i : Nat)
    (h : i ≤ cs.length) :
    (computeNeighbors cs i).1
      = (if i = 0 then none else (cs[i - 1]?).map (fun c => c.id)) ∧
    (computeNeighbors cs i).2 = (cs[i]?).map (fun c => c.id) ∧
    ((computeNeighbors cs i).1 = none ↔ i = 0) ∧
    ((computeNeighbors cs i).2 = none ↔ i = cs.length) ∧
    (cs = [] → computeNeighbors cs i = (none, none)) := by
  by_cases h0 : i = 0
  · subst h0
    have hres1 : (computeNeighbors cs 0).1 = none := rfl
    have hres2 : (computeNeighbors cs 0).2 = cs.head?.map (fun c => c.id) := rfl
    refine ⟨by rw [hres1, if_pos rfl], ?_, ⟨fun _ => rfl, fun _ => hres1⟩, ?_, ?_⟩
    · rw [hres2, List.head?_eq_getElem?]
    · rw [hres2, Option.map_eq_none', List.head?_eq_none_iff]
      constructor
      · intro hcs; rw [hcs]; rfl
      · intro hlen; exact List.length_eq_zero.mp hlen.symm
    · intro hcs; subst hcs; rfl
  · by_cases hge : cs.length ≤ i
    · have hi : i = cs.length := le_antisymm h hge
      subst hi
      have hres1 : (computeNeighbors cs cs.length).1
          = cs.getLast?.map (fun c => c.id) := by
        unfold computeNeighbors
        rw [if_neg h0, if_pos hge]
      have hres2 : (computeNeighbors cs cs.length).2 = none := by
        unfold computeNeighbors
        rw [if_neg h0, if_pos hge]
      refine ⟨?_, ?_, ?_, ⟨fun _ => rfl, fun _ => hres2⟩, ?_⟩
      · rw [hres1, if_neg h0, List.getLast?_eq_getElem?]
      · rw [hres2, List.getElem?_eq_none (le_refl _)]
        rfl
      · rw [hres1]
        constructor
        · intro hnone
          rw [Option.map_eq_none', List.getLast?_eq_none_iff] at hnone
          rw [hnone]
          rfl
        · intro h00; exact absurd h00 h0
      · intro hcs
        rw [hcs] at h0
        exact absurd rfl h0
    · have hlt : i < cs.length := by omega
      have hres1 : (computeNeighbors cs i).1
          = (cs[i - 1]?).map (fun c => c.id) := by
        unfold computeNeighbors
        rw [if_neg h0, if_neg hge]
      have hres2 : (computeNeighbors cs i).2 = (cs[i]?).map (fun c => c.id) := by
        unfold computeNeighbors
        rw [if_neg h0, if_neg hge]
      refine ⟨by rw [hres1, if_neg h0], hres2, ?_, ?_, ?_⟩
      · rw [hres1]
        constructor
        · intro hnone
          rw [Option.map_eq_none', List.getElem?_eq_getElem (by omega)] at hnone
          cases hnone
        · intro h00; exact absurd h00 h0
      · rw [hres2]
        constructor
        · intro hnone
          rw [Option.map_eq_none', List.getElem?_eq_getElem (by omega)] at hnone
          cases hnone
        · intro hieq; exact absurd hieq (by omega)
      · intro hcs
        rw [hcs] at hlt
        simp at hlt

/-- The two cards of the demonstration board's list 20. -/
def demoCard2 : Card :=
  { id := 2, title := "B", description := none, position := ['b'],
    list_id := 20, version := 1, created_at := "" }

/-- The second card of the demonstration board's list 20. -/
def demoCard3 : Card :=
  { id := 3, title := "C", description := none, position := ['d'],
    list_id := 20, version := 1, created_at := "" }

/-- Witness for C7 at insertion index 1 over two remaining cards: the
neighbors are the cards at indices 0 and 1. -/
theorem computeNeighbors_immediate_neighbors_witness :
    (computeNeighbors [demoCard2, demoCard3] 1).1
      = (if 1 = 0 then none else ([demoCard2, demoCard3][1 - 1]?).map (fun c => c.id)) ∧
    (computeNeighbors [demoCard2, demoCard3] 1).2
      = ([demoCard2, demoCard3][1]?).map (fun c => c.id) :=
  ⟨(computeNeighbors_immediate_neighbors [demoCard2, demoCard3] 1 (by decide)).1,
   (computeNeighbors_immediate_neighbors [demoCard2, demoCard3] 1 (by decide)).2.1⟩

/-- C8: moveCardOptimistic never changes the moved card's position or
version fields: the returned card is the extracted source card with only
its list_id replaced, and every move request built for the server carries
as expected_version exactly the version field of the dragged card — the
last server-acknowledged version, never a locally invented one. -/
theorem moveCardOptimistic_keeps_position_version
    (cardId sourceListId targetListId newIndex : Nat) (ob : Option Board)
    (c : Card)
    (hc : (moveCardOptimistic cardId sourceListId targetListId newIndex ob).card
      = some c) :
    (∃ b sl c0 rest, ob = some b ∧
      b.lists.find? (fun l => l.id == sourceListId) = some sl ∧
      extractFirst (fun c2 => c2.id == cardId) sl.cards = some (c0, rest) ∧
      c = { c0 with list_id := targetListId } ∧
      c.position = c0.position ∧ c.version = c0.version ∧
      c.id = c0.id ∧ c.title = c0.title) ∧
    (∀ args, (buildMoveRequest args).expected_version = args.version) ∧
    (∀ ob2 ac ov ma, handleDragEnd ob2 ac ov = some ma →
      ∃ a2, ac = some a2 ∧ ma.version = a2.version) := by
  refine ⟨?_, fun args => rfl, ?_⟩
  · cases ob with
    | none => simp [moveCardOptimistic] at hc
    | some prev =>
      cases h1 : prev.lists.find? (fun l => l.id == sourceListId) with
      | none => simp [moveCardOptimistic, h1] at hc
      | some sourceList =>
        cases h2 : extractFirst (fun c2 => c2.id == cardId) sourceList.cards with
        | none => simp [moveCardOptimistic, h1, h2] at hc
        | some p =>
          obtain ⟨card0, remaining⟩ := p
          cases h3 : (updateFirst (fun l => l.id == sourceListId)
              (fun l => { l with cards := remaining }) prev.lists).find?
              (fun l => l.id == targetListId) with
          | none => simp [moveCardOptimistic, h1, h2, h3] at hc
          | some targetList =>
            simp only [moveCardOptimistic, h1, h2, h3, Option.some.injEq] at hc
            subst hc
            exact ⟨prev, sourceList, card0, remaining, rfl, h1, h2,
              rfl, rfl, rfl, rfl, rfl⟩
  · intro ob2 ac ov ma hma
    cases ob2 with
    | none => simp [handleDragEnd] at hma
    | some b =>
      cases ov with
      | none => simp [handleDragEnd] at hma
      | some ov2 =>
        cases ac with
        | none => simp [handleDragEnd] at hma
        | some a2 =>
          refine ⟨a2, rfl, ?_⟩
          cases ov2 with
          | card overCard =>
            cases h4 : b.lists.find? (fun l => l.id == overCard.list_id) with
            | none => simp [handleDragEnd, h4] at hma
            | some tl =>
              by_cases h5 : (a2.list_id == overCard.list_id
                  && tl.cards.findIdx? (fun c2 => c2.id == a2.id)
                    == tl.cards.findIdx? (fun c2 => c2.id == overCard.id)) = true
              · simp [handleDragEnd, h4, h5] at hma
              · rw [Bool.not_eq_true] at h5
                cases h6 : tl.cards.findIdx? (fun c2 => c2.id == overCard.id) with
                | none => simp [handleDragEnd, h4, h5, h6] at hma
                | some ni =>
                  have h5b : (a2.list_id == overCard.list_id
                      && tl.cards.findIdx? (fun c2 => c2.id == a2.id) == some ni)
                      = false := by rw [← h6]; exact h5
                  simp [handleDragEnd, h4, h6, h5b] at hma
                  subst hma
                  rfl
          | list lid =>
            cases h4 : b.lists.find? (fun l => l.id == lid) with
            | none => simp [handleDragEnd, h4] at hma
            | some tl =>
              simp only [handleDragEnd, h4, Option.some.injEq] at hma
              subst hma
              rfl

/-- The card returned by moving card 1 of the demonstration board into
list 20. -/
def demoMovedCard : Card :=
  { id := 1, title := "A", description := none, position := ['a'],
    list_id := 20, version := 1, created_at := "" }

/-- Witness for C8: moving card 1 of the demonstration board to list 20
returns the source card with only list_id changed. -/
theorem moveCardOptimistic_keeps_position_version_witness :
    ∃ b sl c0 rest, (some demoC6Board : Option Board) = some b ∧
      b.lists.find? (fun l => l.id == 10) = some sl ∧
      extractFirst (fun c2 => c2.id == 1) sl.cards = some (c0, rest) ∧
      demoMovedCard = { c0 with list_id := 20 } ∧
      demoMovedCard.position = c0.position ∧ demoMovedCard.version = c0.version ∧
      demoMovedCard.id = c0.id ∧ demoMovedCard.title = c0.title :=
  (moveCardOptimistic_keeps_position_version 1 10 20 2 (some demoC6Board)
    demoMovedCard (by decide)).1

/-- Total number of cards on a board. -/
def totalCards (b : Board) : Nat := (b.lists.map (fun l => l.cards.length)).sum

/-- Total number of cards in the stored, possibly absent, board. -/
def totalCardsOpt : Option Board → Nat
  | none => 0
  | some b => totalCards b

/-- All cards of a board, lists concatenated. -/
def boardCards (b : Board) : List Card := (b.lists.map (fun l => l.cards)).flatten

theorem extractFirst_length {α : Type} (p : α → Bool) (l : List α) (x : α)
    (rest : List α) (h : extractFirst p l = some (x, rest)) :
    rest.length + 1 = l.length := by
  induction l generalizing rest with
  | nil => cases h
  | cons y ys ih =>
    unfold extractFirst at h
    by_cases hp : p y = true
    · rw [if_pos hp] at h
      simp only [Option.some.injEq, Prod.mk.injEq] at h
      rw [← h.2]
      simp
    · rw [if_neg hp] at h
      cases h2 : extractFirst p ys with
      | none => rw [h2] at h; cases h
      | some q =>
        rw [h2] at h
        obtain ⟨x2, rest2⟩ := q
        simp only [Option.map_some', Option.some.injEq, Prod.mk.injEq] at h
        obtain ⟨hx, hrest⟩ := h
        subst hx
        rw [← hrest]
        have := ih rest2 h2
        simp only [List.length_cons]
        omega

theorem find?_updateFirst_sum (p : BoardList → Bool) (f : BoardList → BoardList)
    (l : List BoardList) (x : BoardList) (h : l.find? p = some x)
    (n : Nat) (hf : (f x).cards.length = n) :
    ((updateFirst p f l).map (fun y => y.cards.length)).sum + x.cards.length
      = (l.map (fun y => y.cards.length)).sum + n := by
  induction l with
  | nil => cases h
  | cons y ys ih =>
    cases hp : p y with
    | true =>
      rw [List.find?_cons, hp] at h
      have h2 : some y = some x := h
      injection h2 with h2
      subst h2
      rw [← hf]
      simp only [updateFirst, if_pos hp, List.map_cons, List.sum_cons]
      omega
    | false =>
      rw [List.find?_cons, hp] at h
      have h2 : ys.find? p = some x := h
      have := ih h2
      simp only [updateFirst]
      rw [if_neg (by simp [hp])]
      simp only [List.map_cons, List.sum_cons]
      omega

theorem find?_updateFirst_mem (p : BoardList → Bool) (f : BoardList → BoardList)
    (l : List BoardList) (x : BoardList) (h : l.find? p = some x) :
    f x ∈ updateFirst p f l := by
  induction l with
  | nil => cases h
  | cons y ys ih =>
    cases hp : p y with
    | true =>
      rw [List.find?_cons, hp] at h
      have h2 : some y = some x := h
      injection h2 with h2
      subst h2
      simp [updateFirst, if_pos hp]
    | false =>
      rw [List.find?_cons, hp] at h
      have h2 : ys.find? p = some x := h
      simp only [updateFirst]
      rw [if_neg (by simp [hp])]
      exact List.mem_cons_of_mem _ (ih h2)

/-- C9: moveCardOptimistic is total and conserves cards: every failure —
missing board, or source list, card or target list not found — leaves the
stored board unchanged and returns no card; every success (for every
requested index, also one past the end of the target list, thanks to the
clamping to the list length) keeps the total number of cards on the board
unchanged and places the moved card on the new board. -/
theorem moveCardOptimistic_total_and_conserving
    (cardId sourceListId targetListId newIndex : Nat) (ob : Option Board) :
    ((moveCardOptimistic cardId sourceListId targetListId newIndex ob).card = none →
      (moveCardOptimistic cardId sourceListId targetListId newIndex ob).newStore
        = ob) ∧
    (∀ c, (moveCardOptimistic cardId sourceListId targetListId newIndex ob).card
        = some c →
      totalCardsOpt
          ((moveCardOptimistic cardId sourceListId targetListId newIndex ob).newStore)
        = totalCardsOpt ob ∧
      ∃ nb, (moveCardOptimistic cardId sourceListId targetListId newIndex ob).newStore
          = some nb ∧ c ∈ boardCards nb) := by
  cases ob with
  | none =>
    exact ⟨fun _ => rfl, fun c hc => by simp [moveCardOptimistic] at hc⟩
  | some prev =>
    cases h1 : prev.lists.find? (fun l => l.id == sourceListId) with
    | none =>
      constructor
      · intro h0
        simp [moveCardOptimistic, h1]
      · intro c hc
        simp [moveCardOptimistic, h1] at hc
    | some sourceList =>
      cases h2 : extractFirst (fun c2 => c2.id == cardId) sourceList.cards with
      | none =>
        constructor
        · intro h0
          simp [moveCardOptimistic, h1, h2]
        · intro c hc
          simp [moveCardOptimistic, h1, h2] at hc
      | some p =>
        obtain ⟨card0, remaining⟩ := p
        cases h3 : (updateFirst (fun l => l.id == sourceListId)
            (fun l => { l with cards := remaining }) prev.lists).find?
            (fun l => l.id == targetListId) with
        | none =>
          constructor
          · intro h0
            simp [moveCardOptimistic, h1, h2, h3]
          · intro c hc
            simp [moveCardOptimistic, h1, h2, h3] at hc
        | some targetList =>
          constructor
          · intro h0
            simp [moveCardOptimistic, h1, h2, h3] at h0
          · intro c hc
            simp only [moveCardOptimistic, h1, h2, h3, Option.some.injEq] at hc
            subst hc
            have hA := find?_updateFirst_sum (fun l => l.id == sourceListId)
              (fun l => { l with cards := remaining }) prev.lists sourceList h1
              remaining.length rfl
            have hB := extractFirst_length (fun c2 => c2.id == cardId)
              sourceList.cards card0 remaining h2
            have hlen : (targetList.cards.insertIdx
                (min newIndex targetList.cards.length)
                { card0 with list_id := targetListId }).length
                = targetList.cards.length + 1 :=
              List.length_insertIdx _ _ (Nat.min_le_right _ _)
            have hC := find?_updateFirst_sum (fun l => l.id == targetListId)
              (fun l => { l with cards := l.cards.insertIdx (min newIndex targetList.cards.length) { card0 with list_id := targetListId } })
              (updateFirst (fun l => l.id == sourceListId)
                (fun l => { l with cards := remaining }) prev.lists)
              targetList h3 (targetList.cards.length + 1) hlen
            constructor
            · simp only [moveCardOptimistic, h1, h2, h3, totalCardsOpt, totalCards]
              omega
            · have hstore : (moveCardOptimistic cardId sourceListId targetListId
                  newIndex (some prev)).newStore
                  = some { prev with lists := updateFirst (fun l => l.id == targetListId) (fun l => { l with cards := l.cards.insertIdx (min newIndex targetList.cards.length) { card0 with list_id := targetListId } }) (updateFirst (fun l => l.id == sourceListId) (fun l => { l with cards := remaining }) prev.lists) } := by
                simp only [moveCardOptimistic, h1, h2, h3]
              refine ⟨_, hstore, ?_⟩
              unfold boardCards
              rw [List.mem_flatten]
              refine ⟨(targetList.cards.insertIdx (min newIndex targetList.cards.length) { card0 with list_id := targetListId }), ?_, ?_⟩
              · rw [List.mem_map]
                exact ⟨_, find?_updateFirst_mem _ _ _ _ h3, rfl⟩
              · rw [List.mem_insertIdx (Nat.min_le_right _ _)]
                exact Or.inl rfl

/-- Witness for C9: the concrete successful move of card 1 into list 20
preserves the total card count and leaves the moved card on the board. -/
theorem moveCardOptimistic_total_and_conserving_witness :
    totalCardsOpt ((moveCardOptimistic 1 10 20 2 (some demoC6Board)).newStore)
      = totalCardsOpt (some demoC6Board) ∧
    ∃ nb, (moveCardOptimistic 1 10 20 2 (some demoC6Board)).newStore = some nb ∧
      demoMovedCard ∈ boardCards nb :=
  (moveCardOptimistic_total_and_conserving 1 10 20 2 (some demoC6Board)).2
    demoMovedCard (by decide)

/-- C10: dropping a card onto its own current position within its own list
is a no-op: when the drop target is a card of the same list whose index
equals the moved card's index, handleDragEnd issues no move request, and
the drag pipeline leaves the stored board unchanged. -/
theorem handleDragEnd_same_position_noop (b : Board) (ac oc : Card)
    (tl : BoardList)
    (hsame : ac.list_id = oc.list_id)
    (hfind : b.lists.find? (fun l => l.id == oc.list_id) = some tl)
    (hidx : tl.cards.findIdx? (fun c => c.id == ac.id)
      = tl.cards.findIdx? (fun c => c.id == oc.id)) :
    handleDragEnd (some b) (some ac) (some (.card oc)) = none ∧
    dragPipeline (some b) (some ac) (some (.card oc)) = some b := by
  have h1 : handleDragEnd (some b) (some ac) (some (.card oc)) = none := by
    simp only [handleDragEnd, hfind]
    rw [if_pos (by rw [hsame, hidx]; simp)]
  refine ⟨h1, ?_⟩
  unfold dragPipeline
  rw [h1]

/-- Witness for C10: dropping card 2 of the demonstration board onto
itself issues no move request and changes nothing. -/
theorem handleDragEnd_same_position_noop_witness :
    handleDragEnd (some demoC6Board) (some demoCard2) (some (.card demoCard2))
      = none ∧
    dragPipeline (some demoC6Board) (some demoCard2) (some (.card demoCard2))
      = some demoC6Board :=
  handleDragEnd_same_position_noop demoC6Board demoCard2 demoCard2
    { id := 20, name := "L2", position := ['b'], board_id := 1,
      cards := [demoCard2, demoCard3] }
    (by decide) (by decide) (by decide)

end Ascendo
